import Mathlib

/-!
Shallow embedding of the Glicko-2 multiplayer rating engine of this
repository (`glicko2_calculator.py`, with `gui.py` carrying an identical
copy of the numeric core), together with proofs settling the frozen
claims about its specification.

Dates are modelled as day numbers (`ℤ`); Python `date` subtraction
yields a number of days, matching `days_since_last_played`.  Machine
floats are modelled as real numbers; the volatility solver's unbounded
`while True` loop is modelled with an explicit fuel parameter, `none`
standing for "still iterating after that many steps".
-/

namespace Glicko

/-- Module constant `SCALING_FACTOR = 173.7178` from the source. -/
noncomputable def SCALING_FACTOR : ℝ := 173.7178

/-- Module constant `PI_SQUARED = math.pi ** 2` from the source. -/
noncomputable def PI_SQUARED : ℝ := Real.pi ^ 2

/-- Module constant `EPSILON = 0.000001` from the source. -/
noncomputable def EPSILON : ℝ := 0.000001

/-- Module constant `MAX_RATING_CHANGE = 250` from the source. -/
noncomputable def MAX_RATING_CHANGE : ℝ := 250

/-- One participant's rating record, mirroring the fields of the Python
`Player` class (`glicko2_calculator.py` lines 14-23). -/
structure Player where
  name : String
  rating : ℝ
  rd : ℝ
  volatility : ℝ
  last_played_date : ℤ
  games_today : ℕ
  season_start : ℤ

/-- The `Player.__init__` constructor: `last_played_date` defaults to
`season_start` when absent (`last_played or season_start or today`; a
Python `date` is never falsy, so the chain reads the first present
value), and `games_today` starts at 0. -/
def Player.make (name : String) (rating rd volatility : ℝ)
    (last_played : Option ℤ) (season_start : ℤ) : Player :=
  { name := name
    rating := rating
    rd := rd
    volatility := volatility
    last_played_date := last_played.getD season_start
    games_today := 0
    season_start := season_start }

/-- `Player.to_glicko2_scale`: `((rating - 1500) / S, rd / S)`. -/
noncomputable def to_glicko2_scale (p : Player) : ℝ × ℝ :=
  ((p.rating - 1500) / SCALING_FACTOR, p.rd / SCALING_FACTOR)

/-- `Player.from_glicko2_scale`: writes `rating := mu * S + 1500` and
`rd := phi * S`, leaving every other field unchanged. -/
noncomputable def from_glicko2_scale (p : Player) (mu phi : ℝ) : Player :=
  { p with rating := mu * SCALING_FACTOR + 1500, rd := phi * SCALING_FACTOR }

/-- `glicko2_g(phi) = 1 / sqrt(1 + 3 phi^2 / pi^2)`. -/
noncomputable def glicko2_g (phi : ℝ) : ℝ :=
  1 / Real.sqrt (1 + 3 * phi ^ 2 / PI_SQUARED)

/-- The expected-score expression `1 / (1 + exp(-g * (mu - opp_mu)))`
inlined in `update_player_ratings`. -/
noncomputable def glicko2_E (g mu opp_mu : ℝ) : ℝ :=
  1 / (1 + Real.exp (-g * (mu - opp_mu)))

/-- `update_rd_for_inactivity` (`glicko2_calculator.py` lines 283-290):
when the match date differs from `last_played_date`, reset
`games_today`, grow `phi` by `volatility^2 * days` and cap the resulting
RD at 350; otherwise do nothing.  `days_since_last_played` is
`current - last_played_date` (the field is never null after
construction, see `Player.make`). -/
noncomputable def update_rd_for_inactivity (p : Player) (game_date : ℤ) : Player :=
  if p.last_played_date ≠ game_date then
    let days : ℝ := ((game_date - p.last_played_date : ℤ) : ℝ)
    let phi := p.rd / SCALING_FACTOR
    let phi_star := Real.sqrt (phi ^ 2 + p.volatility ^ 2 * days)
    { p with games_today := 0, rd := min (phi_star * SCALING_FACTOR) 350 }
  else p

/-- The tie counter built at the top of `process_game`:
`tied_at_place[place]` is the number of placement entries sharing that
rank. -/
def tied_at_place (placements : List (Player × ℤ)) (place : ℤ) : ℕ :=
  (placements.filter (fun x => x.2 = place)).length

/-- The per-ordered-pair outcome expression of `calculate_outcomes`
(`glicko2_calculator.py` lines 300-305): 1.0 when the player's rank is
lower, 0.0 when it is higher, and
`(num_players - place) / (num_players - 1) / tied_at_place[place]` on a
tie. -/
noncomputable def outcome_score (num_players : ℕ) (tied : ℤ → ℕ)
    (place opp_place : ℤ) : ℝ :=
  if place < opp_place then 1
  else if opp_place < place then 0
  else ((num_players : ℝ) - (place : ℝ)) / ((num_players : ℝ) - 1) / (tied place : ℝ)

/-- The result list `calculate_outcomes` builds for the player at index
`i`: one `(opp_mu, opp_phi, outcome)` triple per opponent (every other
index, in list order).  Opponent `mu`/`phi` are read here, before any
participant is mutated. -/
noncomputable def results_for (placements : List (Player × ℤ)) (num_players : ℕ)
    (tied : ℤ → ℕ) (i : ℕ) (place : ℤ) : List (ℝ × ℝ × ℝ) :=
  (placements.enum.filter (fun x => x.1 ≠ i)).map
    (fun x => ((to_glicko2_scale x.2.1).1, (to_glicko2_scale x.2.1).2,
      outcome_score num_players tied place x.2.2))

/-- One pass of the `while True` body of `update_volatility`
(`glicko2_calculator.py` lines 47-55): the damped Newton step
`x1 = x0 - h1(x0)/h2(x0)`. -/
noncomputable def vol_step (a tau phi v delta x0 : ℝ) : ℝ :=
  let d := phi ^ 2 + v + Real.exp x0
  let h1 := -(x0 - a) / tau ^ 2 - 0.5 * Real.exp x0 / d +
    0.5 * Real.exp x0 * (delta / d) ^ 2
  let h2 := -1 / tau ^ 2 - 0.5 * Real.exp x0 * (phi ^ 2 + v) / d ^ 2 +
    0.5 * delta ^ 2 * Real.exp x0 * (phi ^ 2 + v - Real.exp x0) / d ^ 3
  x0 - h1 / h2

/-- The `while True` loop of `update_volatility`, made explicit with a
fuel parameter: `none` means the loop is still running after `fuel`
iterations.  The source has no iteration cap; on break it returns
`exp(x1 / 2)` for the freshly computed `x1`. -/
noncomputable def vol_loop (a tau phi v delta : ℝ) : ℕ → ℝ → Option ℝ
  | 0, _ => none
  | fuel + 1, x0 =>
    let x1 := vol_step a tau phi v delta x0
    if |x1 - x0| < EPSILON then some (Real.exp (x1 / 2))
    else vol_loop a tau phi v delta fuel x1

/-- `update_volatility(mu, phi, volatility, v, delta, tau=0.5)`
(`glicko2_calculator.py` lines 43-56).  The `mu` argument is unused by
the source body; iteration starts at `x0 = a = ln(volatility^2)`. -/
noncomputable def update_volatility (fuel : ℕ) (mu phi volatility v delta tau : ℝ) :
    Option ℝ :=
  let a := Real.log (volatility ^ 2)
  vol_loop a tau phi v delta fuel a

/-- `update_player_ratings` (`glicko2_calculator.py` lines 310-329).
When `is_first_game_today` is false the function returns immediately,
leaving the player untouched.  Otherwise it runs the full Glicko-2
update: per-opponent `g` and `E`, tie-inflated variance `v`, `delta`
scaled by `sqrt(num_players - 1)`, the volatility solver, and the
rating change capped at `MAX_RATING_CHANGE / S * sqrt(num_players - 1)`
on the internal scale. -/
noncomputable def update_player_ratings (fuel : ℕ) (p : Player) (mu phi : ℝ)
    (results : List (ℝ × ℝ × ℝ)) (is_first_game_today : Bool)
    (num_players : ℕ) (tied : ℤ → ℕ) (placements : List (Player × ℤ)) :
    Option Player :=
  if is_first_game_today = false then some p
  else
    let gE : List (ℝ × ℝ × ℝ) := results.map (fun r =>
      (glicko2_g r.2.1, glicko2_E (glicko2_g r.2.1) mu r.1, r.2.2))
    let tie_factor : ℝ :=
      ((placements.filter (fun x => 1 < tied x.2)).length : ℝ) / (num_players : ℝ)
    let v : ℝ :=
      1 / (gE.map (fun x => x.1 ^ 2 * x.2.1 * (1 - x.2.1) * (1 + tie_factor))).sum
    let perf : ℝ := (gE.map (fun x => x.1 * (x.2.2 - x.2.1))).sum
    let delta : ℝ := v * perf * Real.sqrt ((num_players : ℝ) - 1)
    (update_volatility fuel mu phi p.volatility v delta 0.5).map (fun new_vol =>
      let phi_star := Real.sqrt (phi ^ 2 + new_vol ^ 2)
      let phi_prime := 1 / Real.sqrt (1 / phi_star ^ 2 + 1 / v)
      let mu_prime := mu + phi_prime ^ 2 * perf
      let delta_cap := MAX_RATING_CHANGE / SCALING_FACTOR * Real.sqrt ((num_players : ℝ) - 1)
      let mu_capped := max (min mu_prime (mu + delta_cap)) (mu - delta_cap)
      { from_glicko2_scale p mu_capped phi_prime with volatility := new_vol })

/-- The two per-player statements at the end of the `process_game`
update loop: `player.last_played_date = game_date` and
`player.games_today += 1`. -/
def bookkeep (game_date : ℤ) (p : Player) : Player :=
  { p with last_played_date := game_date, games_today := p.games_today + 1 }

/-- One iteration of the `process_game` update loop for the player at
index `i`: own `mu`, `phi`, volatility and `games_today` are read from
the player's current state, opponent data comes from the pre-computed
`results_for` snapshot, and the result replaces only entry `i`. -/
noncomputable def process_entry (fuel : ℕ) (snap : List (Player × ℤ)) (game_date : ℤ)
    (tied : ℤ → ℕ) (i : ℕ) (p : Player) (place : ℤ) : Option Player :=
  (update_player_ratings fuel p (to_glicko2_scale p).1 (to_glicko2_scale p).2
      (results_for snap snap.length tied i place) (p.games_today == 0)
      snap.length tied snap).map (bookkeep game_date)

/-- Advancing the mutable participant vector by processing index `i`.
A `none` state (a participant's solver still iterating) is absorbing;
an out-of-range index leaves the state unchanged (never reached from
`process_game`). -/
noncomputable def process_step (fuel : ℕ) (snap : List (Player × ℤ)) (game_date : ℤ)
    (tied : ℤ → ℕ) (s : Option (List Player)) (i : ℕ) : Option (List Player) :=
  s.bind (fun σ =>
    match σ[i]? with
    | none => some σ
    | some p =>
      match snap[i]? with
      | none => some σ
      | some e => (process_entry fuel snap game_date tied i p e.2).map (σ.set i))

/-- The `for player in players: update_rd_for_inactivity(player, game_date)`
pass of `process_game`, applied once per participant before any outcome
computation. -/
noncomputable def decay_snapshot (placements : List (Player × ℤ)) (game_date : ℤ) :
    List (Player × ℤ) :=
  placements.map (fun x => (update_rd_for_inactivity x.1 game_date, x.2))

/-- `process_game` with an explicit processing order for the update
loop (the source iterates the `outcomes` dict in insertion order, i.e.
`List.range`).  Tie counts are taken from the submitted placements, the
inactivity decay runs once per participant before any outcome
computation, and all outcomes are computed from that decayed snapshot
before any rating is written. -/
noncomputable def process_game_in_order (fuel : ℕ) (placements : List (Player × ℤ))
    (game_date : ℤ) (order : List ℕ) : Option (List Player) :=
  let tied := tied_at_place placements
  let snap := decay_snapshot placements game_date
  order.foldl (process_step fuel snap game_date tied) (some (snap.map Prod.fst))

/-- `process_game` (`glicko2_calculator.py` lines 331-352, persistence
call omitted): decay, outcome snapshot, then the per-participant update
loop in list order. -/
noncomputable def process_game (fuel : ℕ) (placements : List (Player × ℤ))
    (game_date : ℤ) : Option (List Player) :=
  process_game_in_order fuel placements game_date (List.range placements.length)

/-- Modelled from the spec: the lightweight same-day rating-only nudge
claimed for the `gamesPlayedToday > 0` branch — for each opponent,
`mu += (RD/S)^2 * g(phi_opp) * (outcome - E(opp))`, leaving RD and
volatility untouched.  No such code exists in the repository; this
definition exists only to compare the claim against the source. -/
noncomputable def update_player_ratings_spec_nudge (p : Player) (mu : ℝ)
    (results : List (ℝ × ℝ × ℝ)) : Player :=
  let phi := p.rd / SCALING_FACTOR
  let mu_new := mu + (results.map (fun r =>
    phi ^ 2 * glicko2_g r.2.1 * (r.2.2 - glicko2_E (glicko2_g r.2.1) mu r.1))).sum
  { p with rating := mu_new * SCALING_FACTOR + 1500 }

/-- Modelled from the spec: the recommended volatility bounds
`[0.03, 0.15]` (§3).  The source never clamps volatility. -/
noncomputable def volatilityMin : ℝ := 0.03

/-- Modelled from the spec: upper volatility bound, see `volatilityMin`. -/
noncomputable def volatilityMax : ℝ := 0.15

/-- The per-entry validation of `read_game_file`
(`glicko2_calculator.py` lines 207-231): walk the `name:place` entries,
rejecting the game at the first non-positive placement or duplicate
player (with `dry_run=False` an unknown name is auto-created, so every
name resolves). -/
def read_entries : List (String × ℤ) → List (String × ℤ) → Option (List (String × ℤ))
  | [], acc => some acc.reverse
  | (name, place) :: rest, acc =>
    if place < 1 then none
    else if acc.any (fun x => x.1 = name) then none
    else read_entries rest ((name, place) :: acc)

/-- The whole-game validation of one `read_game_file` line
(`glicko2_calculator.py` lines 232-239): after the entry walk, reject
games with fewer than two players or a placement exceeding the player
count. -/
def read_game_line (entries : List (String × ℤ)) : Option (List (String × ℤ)) :=
  (read_entries entries []).bind (fun ps =>
    if ps.length < 2 then none
    else if ps.any (fun x => (ps.length : ℤ) < x.2) then none
    else some ps)

/-- The validation performed by `add_match_ui` (`gui.py` lines
198-219) on the parsed `(player, placement)` pairs: reject when fewer
than two placements were collected, or when a player name repeats.  No
check on the placement values themselves is performed. -/
def add_match_ui_validate (entries : List (String × ℤ)) :
    Option (List (String × ℤ)) :=
  if entries.length < 2 then none
  else if ¬ (entries.map Prod.fst).Nodup then none
  else some entries

/-- The `add_player` entry point (`gui.py` lines 161-177 with
`database.add_player_db`): reject an empty or already-present name;
the numeric fields — rating, RD and volatility — are stored without any
bounds check, and the stored player reads back with
`last_played_date = season_start` (the DB row has no last-played
date until a match is processed). -/
def add_player (roster : List String) (name : String)
    (rating rd volatility : ℝ) (today : ℤ) : Option Player :=
  if name = "" then none
  else if roster.contains name then none
  else some (Player.make name rating rd volatility none today)

/-- Test fixture: a participant whose `games_today` counter is already
1 on the match date (their second processed match of the day). -/
noncomputable def pGA : Player :=
  { name := "A", rating := 1500, rd := 300, volatility := 0.06,
    last_played_date := 5, games_today := 1, season_start := 0 }

/-- Test fixture: like `pGA` but with a different rating and RD. -/
noncomputable def pGB : Player :=
  { name := "B", rating := 1400, rd := 200, volatility := 0.06,
    last_played_date := 5, games_today := 1, season_start := 0 }

/-- Test fixture: a two-player match on day 5 in which `pGA` and `pGB`
are tied at rank 1. -/
noncomputable def plsTied : List (Player × ℤ) := [(pGA, 1), (pGB, 1)]

/-- Test fixture: a participant with out-of-bounds volatility 0.5
(player construction performs no validation) who last played on day 3. -/
noncomputable def pC4 : Player :=
  { name := "X", rating := 1500, rd := 100, volatility := 0.5,
    last_played_date := 3, games_today := 0, season_start := 0 }

/-- Test fixture: a participant with `rating` 1600 and RD 350 used to
exercise the same-day branch of `update_player_ratings`. -/
noncomputable def pC1 : Player :=
  { name := "N", rating := 1600, rd := 350, volatility := 0.06,
    last_played_date := 5, games_today := 1, season_start := 0 }

end Glicko

namespace Glicko

/-- **C6.** For a valid match (at least two participants, every rank in
`[1, N]`) and any ordered pair of distinct participants, the outcome
score is 1 when the first rank is lower, 0 when it is higher, the tie
formula `(N - rank) / (N - 1) / tieCount(rank)` on a tie, and in all
cases lies in `[0, 1]`. -/
theorem outcome_score_cases_and_bounds (pls : List (Player × ℤ)) (i j : ℕ)
    (pA : Player) (a : ℤ) (pB : Player) (b : ℤ)
    (hi : pls[i]? = some (pA, a)) (hj : pls[j]? = some (pB, b))
    (hij : i ≠ j) (hn : 2 ≤ pls.length)
    (hval : ∀ x ∈ pls, 1 ≤ x.2 ∧ x.2 ≤ (pls.length : ℤ)) :
    (a < b → outcome_score pls.length (tied_at_place pls) a b = 1) ∧
    (b < a → outcome_score pls.length (tied_at_place pls) a b = 0) ∧
    (a = b → outcome_score pls.length (tied_at_place pls) a b =
      ((pls.length : ℝ) - (a : ℝ)) / ((pls.length : ℝ) - 1) /
        (tied_at_place pls a : ℝ)) ∧
    0 ≤ outcome_score pls.length (tied_at_place pls) a b ∧
    outcome_score pls.length (tied_at_place pls) a b ≤ 1 := by
  have hmemA : (pA, a) ∈ pls := by
    rw [List.getElem?_eq_some] at hi
    obtain ⟨hl, he⟩ := hi
    exact he ▸ List.getElem_mem hl
  have hA := hval _ hmemA
  have ha1 : (1 : ℤ) ≤ a := hA.1
  have han : a ≤ (pls.length : ℤ) := hA.2
  have hcount : 1 ≤ tied_at_place pls a := by
    have : (pA, a) ∈ pls.filter (fun x => x.2 = a) := by
      simp [List.mem_filter, hmemA]
    have hlen := List.length_pos.mpr (List.ne_nil_of_mem this)
    simpa [tied_at_place] using hlen
  have hnR : (2 : ℝ) ≤ (pls.length : ℝ) := by exact_mod_cast hn
  have hden : (0 : ℝ) < (pls.length : ℝ) - 1 := by linarith
  have hcR : (1 : ℝ) ≤ (tied_at_place pls a : ℝ) := by exact_mod_cast hcount
  have haR : (1 : ℝ) ≤ (a : ℝ) := by exact_mod_cast ha1
  have hanR : (a : ℝ) ≤ (pls.length : ℝ) := by exact_mod_cast han
  refine ⟨?_, ?_, ?_, ?_, ?_⟩
  · intro h; simp [outcome_score, h]
  · intro h
    have h' : ¬ a < b := not_lt.mpr h.le
    simp [outcome_score, h', h]
  · intro h; simp [outcome_score, h]
  · by_cases h1 : a < b
    · simp [outcome_score, h1]
    · by_cases h2 : b < a
      · simp [outcome_score, h1, h2]
      · have hab : a = b := le_antisymm (not_lt.mp h2) (not_lt.mp h1)
        have : (0 : ℝ) ≤ ((pls.length : ℝ) - (a : ℝ)) / ((pls.length : ℝ) - 1) := by
          apply div_nonneg (by linarith) hden.le
        simp only [outcome_score, h1, h2, if_false]
        exact div_nonneg this (by linarith)
  · by_cases h1 : a < b
    · simp [outcome_score, h1]
    · by_cases h2 : b < a
      · simp [outcome_score, h1, h2]
      · have hfrac : ((pls.length : ℝ) - (a : ℝ)) / ((pls.length : ℝ) - 1) ≤ 1 := by
          rw [div_le_one hden]; linarith
        have hfrac0 : (0 : ℝ) ≤ ((pls.length : ℝ) - (a : ℝ)) / ((pls.length : ℝ) - 1) := by
          apply div_nonneg (by linarith) hden.le
        simp only [outcome_score, h1, h2, if_false]
        calc ((pls.length : ℝ) - (a : ℝ)) / ((pls.length : ℝ) - 1) / (tied_at_place pls a : ℝ)
            ≤ ((pls.length : ℝ) - (a : ℝ)) / ((pls.length : ℝ) - 1) :=
              div_le_self hfrac0 hcR
          _ ≤ 1 := hfrac

/-- Witness for C6: a concrete valid three-player match with a tie at
rank 1, evaluating the tie branch to 1/4 ∈ [0,1]. -/
theorem outcome_score_cases_and_bounds_witness :
    outcome_score 3
      (tied_at_place [(Player.make "A" 1500 350 0.06 none 0, 1),
        (Player.make "B" 1500 350 0.06 none 0, 1),
        (Player.make "C" 1500 350 0.06 none 0, 3)]) 1 1 =
      ((3 : ℝ) - 1) / ((3 : ℝ) - 1) /
        (tied_at_place [(Player.make "A" 1500 350 0.06 none 0, 1),
          (Player.make "B" 1500 350 0.06 none 0, 1),
          (Player.make "C" 1500 350 0.06 none 0, 3)] 1 : ℝ) := by
  have h := outcome_score_cases_and_bounds
    [(Player.make "A" 1500 350 0.06 none 0, 1),
     (Player.make "B" 1500 350 0.06 none 0, 1),
     (Player.make "C" 1500 350 0.06 none 0, 3)]
    0 1 (Player.make "A" 1500 350 0.06 none 0) 1
    (Player.make "B" 1500 350 0.06 none 0) 1
    rfl rfl (by decide) (by decide)
    (by
      intro x hx
      simp only [List.mem_cons, List.not_mem_nil, or_false] at hx
      rcases hx with h | h | h <;> subst h <;> constructor <;> decide)
  simpa using h.2.2.1 rfl

theorem process_step_comm (fuel : ℕ) (snap : List (Player × ℤ)) (gd : ℤ) (tied : ℤ → ℕ)
    (s : Option (List Player)) (i j : ℕ) :
    process_step fuel snap gd tied (process_step fuel snap gd tied s i) j =
      process_step fuel snap gd tied (process_step fuel snap gd tied s j) i := by
  rcases s with _ | σ
  · rfl
  rcases eq_or_ne i j with rfl | hij
  · rfl
  rcases hσi : σ[i]? with _ | p <;> rcases hsi : snap[i]? with _ | e <;>
    rcases hσj : σ[j]? with _ | q <;> rcases hsj : snap[j]? with _ | f <;>
    simp only [process_step, Option.some_bind, hσi, hsi, hσj, hsj]
  · rcases process_entry fuel snap gd tied j q f.2 with _ | w <;>
      simp only [Option.map_none', Option.map_some', Option.none_bind, Option.some_bind,
        List.getElem?_set_ne (Ne.symm hij), hσi, hsi]
  · rcases process_entry fuel snap gd tied j q f.2 with _ | w <;>
      simp only [Option.map_none', Option.map_some', Option.none_bind, Option.some_bind,
        List.getElem?_set_ne (Ne.symm hij), hσi, hsi]
  · rcases process_entry fuel snap gd tied j q f.2 with _ | w <;>
      simp only [Option.map_none', Option.map_some', Option.none_bind, Option.some_bind,
        List.getElem?_set_ne (Ne.symm hij), hσi, hsi]
  · rcases process_entry fuel snap gd tied i p e.2 with _ | u <;>
      simp only [Option.map_none', Option.map_some', Option.none_bind, Option.some_bind,
        List.getElem?_set_ne hij, hσj, hsj]
  · rcases process_entry fuel snap gd tied i p e.2 with _ | u <;>
      simp only [Option.map_none', Option.map_some', Option.none_bind, Option.some_bind,
        List.getElem?_set_ne hij, hσj, hsj]
  · rcases process_entry fuel snap gd tied i p e.2 with _ | u <;>
      simp only [Option.map_none', Option.map_some', Option.none_bind, Option.some_bind,
        List.getElem?_set_ne hij, hσj, hsj]
  · rcases hEi : process_entry fuel snap gd tied i p e.2 with _ | u <;>
      rcases hEj : process_entry fuel snap gd tied j q f.2 with _ | w <;>
      simp only [Option.map_none', Option.map_some', Option.none_bind, Option.some_bind,
        List.getElem?_set_ne hij, List.getElem?_set_ne (Ne.symm hij), hσi, hsi, hσj, hsj,
        hEi, hEj]
    rw [List.set_comm _ _ _ hij]

theorem foldl_process_step_none (fuel : ℕ) (snap : List (Player × ℤ)) (gd : ℤ)
    (tied : ℤ → ℕ) (order : List ℕ) :
    order.foldl (process_step fuel snap gd tied) none = none := by
  induction order with
  | nil => rfl
  | cons a l ih => simpa [process_step] using ih

theorem foldl_process_step_some (fuel : ℕ) (snap : List (Player × ℤ)) (gd : ℤ)
    (tied : ℤ → ℕ) (order : List ℕ) (s : Option (List Player)) (out : List Player)
    (h : order.foldl (process_step fuel snap gd tied) s = some out) : ∃ σ, s = some σ := by
  rcases s with _ | σ
  · rw [foldl_process_step_none] at h; exact absurd h (by simp)
  · exact ⟨σ, rfl⟩

theorem process_step_length (fuel : ℕ) (snap : List (Player × ℤ)) (gd : ℤ)
    (tied : ℤ → ℕ) (σ τ : List Player) (i : ℕ)
    (h : process_step fuel snap gd tied (some σ) i = some τ) : τ.length = σ.length := by
  rcases hσi : σ[i]? with _ | p <;> rcases hsi : snap[i]? with _ | e <;>
    simp only [process_step, Option.some_bind, hσi, hsi] at h
  · exact (Option.some_inj.mp h) ▸ rfl
  · exact (Option.some_inj.mp h) ▸ rfl
  · exact (Option.some_inj.mp h) ▸ rfl
  · rcases hE : process_entry fuel snap gd tied i p e.2 with _ | u <;>
      simp only [hE, Option.map_none', Option.map_some'] at h
    · exact absurd h (by simp)
    · rw [← Option.some_inj.mp h, List.length_set]

theorem process_step_frame (fuel : ℕ) (snap : List (Player × ℤ)) (gd : ℤ)
    (tied : ℤ → ℕ) (σ τ : List Player) (i j : ℕ) (hij : i ≠ j)
    (h : process_step fuel snap gd tied (some σ) j = some τ) : τ[i]? = σ[i]? := by
  rcases hσj : σ[j]? with _ | q <;> rcases hsj : snap[j]? with _ | f <;>
    simp only [process_step, Option.some_bind, hσj, hsj] at h
  · rw [← Option.some_inj.mp h]
  · rw [← Option.some_inj.mp h]
  · rw [← Option.some_inj.mp h]
  · rcases hE : process_entry fuel snap gd tied j q f.2 with _ | w <;>
      simp only [hE, Option.map_none', Option.map_some'] at h
    · exact absurd h (by simp)
    · rw [← Option.some_inj.mp h, List.getElem?_set_ne (Ne.symm hij)]

theorem foldl_process_step_frame (fuel : ℕ) (snap : List (Player × ℤ)) (gd : ℤ)
    (tied : ℤ → ℕ) (order : List ℕ) (i : ℕ) (hi : i ∉ order) :
    ∀ σ out, order.foldl (process_step fuel snap gd tied) (some σ) = some out →
      out[i]? = σ[i]? ∧ out.length = σ.length := by
  induction order with
  | nil => intro σ out h; rw [← Option.some_inj.mp h]; exact ⟨rfl, rfl⟩
  | cons a l ih =>
    intro σ out h
    have hia : i ≠ a := fun he => hi (he ▸ List.mem_cons_self a l)
    have hil : i ∉ l := fun he => hi (List.mem_cons_of_mem a he)
    rw [List.foldl_cons] at h
    obtain ⟨τ, hτ⟩ := foldl_process_step_some fuel snap gd tied l _ _ h
    rw [hτ] at h
    obtain ⟨h1, h2⟩ := ih hil τ out h
    exact ⟨h1.trans (process_step_frame fuel snap gd tied σ τ i a hia hτ),
      h2.trans (process_step_length fuel snap gd tied σ τ a hτ)⟩

theorem range_decomp (i n : ℕ) (h : i < n) :
    List.range n = List.range i ++ i :: List.range' (i + 1) (n - (i + 1)) := by
  rw [List.range_eq_range', List.range_eq_range']
  have h2 : n = (n - i) + i := by omega
  rw [h2, ← List.range'_append 0 i (n - i) 1]
  have h3 : n - i = (n - (i + 1)) + 1 := by omega
  rw [h3, List.range'_succ]
  simp
  omega

theorem not_mem_range'_above (i n : ℕ) : i ∉ List.range' (i + 1) n := by
  intro h
  rw [List.mem_range'] at h
  omega

/-- The key locality fact about the `process_game` update loop: the
final state of the participant at index `i` is exactly the result of
that participant's own `process_entry` call on the decayed snapshot —
no other pass (in particular no tie-averaging pass) touches it. -/
theorem foldl_process_step_get (fuel : ℕ) (snap : List (Player × ℤ)) (gd : ℤ)
    (tied : ℤ → ℕ) (σ0 : List Player) (hlen : σ0.length = snap.length)
    (i : ℕ) (hi : i < snap.length) (out : List Player)
    (h : (List.range snap.length).foldl (process_step fuel snap gd tied) (some σ0) =
      some out) :
    ∃ p e u, σ0[i]? = some p ∧ snap[i]? = some e ∧
      process_entry fuel snap gd tied i p e.2 = some u ∧ out[i]? = some u := by
  rw [range_decomp i snap.length hi, List.foldl_append, List.foldl_cons] at h
  obtain ⟨τ2, hτ2⟩ := foldl_process_step_some fuel snap gd tied _ _ _ h
  rw [hτ2] at h
  obtain ⟨τ1, hτ1⟩ : ∃ τ1,
      (List.range i).foldl (process_step fuel snap gd tied) (some σ0) = some τ1 := by
    rcases h1 : (List.range i).foldl (process_step fuel snap gd tied) (some σ0) with _ | τ1
    · rw [h1] at hτ2; exact absurd hτ2 (by simp [process_step])
    · exact ⟨τ1, rfl⟩
  rw [hτ1] at hτ2
  obtain ⟨hf1, hf2⟩ := foldl_process_step_frame fuel snap gd tied (List.range i) i
    (by simp) σ0 τ1 hτ1
  have hiσ : i < σ0.length := hlen ▸ hi
  have hpi : σ0[i]? = some σ0[i] := List.getElem?_eq_getElem hiσ
  have hsi : snap[i]? = some snap[i] := List.getElem?_eq_getElem hi
  have hτ1i : τ1[i]? = some σ0[i] := hf1.trans hpi
  simp only [process_step, Option.some_bind, hτ1i, hsi] at hτ2
  rcases hE : process_entry fuel snap gd tied i σ0[i] (snap[i]).2 with _ | u <;>
    simp only [hE, Option.map_none', Option.map_some'] at hτ2
  · exact absurd hτ2 (by simp)
  refine ⟨σ0[i], snap[i], u, hpi, hsi, hE, ?_⟩
  obtain ⟨hg1, _⟩ := foldl_process_step_frame fuel snap gd tied
    (List.range' (i + 1) (snap.length - (i + 1))) i (not_mem_range'_above i _) τ2 out h
  rw [hg1, ← Option.some_inj.mp hτ2, List.getElem?_set_self (hf2 ▸ hiσ)]

theorem update_player_ratings_gated (fuel : ℕ) (p : Player) (mu phi : ℝ)
    (results : List (ℝ × ℝ × ℝ)) (n : ℕ) (tied : ℤ → ℕ) (pls : List (Player × ℤ)) :
    update_player_ratings fuel p mu phi results false n tied pls = some p := by
  rw [update_player_ratings]
  simp

theorem process_entry_gated (fuel : ℕ) (snap : List (Player × ℤ)) (gd : ℤ)
    (tied : ℤ → ℕ) (i : ℕ) (p : Player) (place : ℤ) (h : p.games_today ≠ 0) :
    process_entry fuel snap gd tied i p place = some (bookkeep gd p) := by
  have hb : (p.games_today == 0) = false := by simpa using h
  rw [process_entry, hb, update_player_ratings_gated]
  rfl

theorem update_player_ratings_games_today (fuel : ℕ) (p : Player) (mu phi : ℝ)
    (results : List (ℝ × ℝ × ℝ)) (first : Bool) (n : ℕ) (tied : ℤ → ℕ)
    (pls : List (Player × ℤ)) (w : Player)
    (h : update_player_ratings fuel p mu phi results first n tied pls = some w) :
    w.games_today = p.games_today := by
  cases first with
  | false => rw [update_player_ratings_gated] at h; rw [← Option.some_inj.mp h]
  | true =>
    rw [update_player_ratings, if_neg (by simp)] at h
    obtain ⟨v, _, hw⟩ := Option.map_eq_some'.mp h
    rw [← hw]
    simp [from_glicko2_scale]

/-- Concrete run: processing the tied same-day match `plsTied` only
bumps the two participants' bookkeeping fields, since both are gated by
`games_today = 1`. -/
theorem process_game_plsTied_eval :
    process_game 1 plsTied 5 = some [bookkeep 5 pGA, bookkeep 5 pGB] := by
  have hlen : plsTied.length = 2 := by simp [plsTied]
  have hr : List.range plsTied.length = [0, 1] := by rw [hlen]; decide
  have hd : decay_snapshot plsTied 5 = plsTied := by
    simp [decay_snapshot, plsTied, update_rd_for_inactivity, pGA, pGB]
  have h1 : process_entry 1 plsTied 5 (tied_at_place plsTied) 0 pGA 1 =
      some (bookkeep 5 pGA) := process_entry_gated _ _ _ _ _ _ _ (by simp [pGA])
  have h2 : process_entry 1 plsTied 5 (tied_at_place plsTied) 1 pGB 1 =
      some (bookkeep 5 pGB) := process_entry_gated _ _ _ _ _ _ _ (by simp [pGB])
  have hm : plsTied.map Prod.fst = [pGA, pGB] := by simp [plsTied]
  have hs0 : plsTied[0]? = some (pGA, 1) := by simp [plsTied]
  have hs1 : plsTied[1]? = some (pGB, 1) := by simp [plsTied]
  rw [process_game, process_game_in_order]
  rw [hr, hd, hm]
  simp only [List.foldl_cons, List.foldl_nil, process_step, Option.some_bind,
    List.getElem?_cons_zero, List.getElem?_cons_succ, hs0, hs1, h1, h2,
    Option.map_some', List.set_cons_zero, List.set_cons_succ]

/-- Localization of the `process_game` result: participant `i`'s final
state is the result of their own `process_entry` on the decayed
snapshot. -/
theorem process_game_localized (fuel : ℕ) (pls : List (Player × ℤ)) (d : ℤ) (i : ℕ)
    (p : Player) (r : ℤ) (out : List Player) (hget : pls[i]? = some (p, r))
    (hout : process_game fuel pls d = some out) :
    ∃ u, process_entry fuel (decay_snapshot pls d) d (tied_at_place pls) i
        (update_rd_for_inactivity p d) r = some u ∧ out[i]? = some u := by
  have hi : i < pls.length := by
    rw [List.getElem?_eq_some] at hget; exact hget.1
  have hsnaplen : (decay_snapshot pls d).length = pls.length := by
    simp [decay_snapshot]
  have hi' : i < (decay_snapshot pls d).length := hsnaplen ▸ hi
  rw [process_game, process_game_in_order] at hout
  rw [show pls.length = (decay_snapshot pls d).length from hsnaplen.symm] at hout
  obtain ⟨p', e, u, hp', he, hE, hu⟩ := foldl_process_step_get fuel
    (decay_snapshot pls d) d (tied_at_place pls) _ (by simp) i hi' out hout
  have he2 : (decay_snapshot pls d)[i]? = some (update_rd_for_inactivity p d, r) := by
    simp [decay_snapshot, List.getElem?_map, hget]
  rw [he2] at he
  have heq := Option.some_inj.mp he
  have hp2 : ((decay_snapshot pls d).map Prod.fst)[i]? =
      some (update_rd_for_inactivity p d) := by
    rw [List.getElem?_map, he2]; rfl
  rw [hp2] at hp'
  rw [← Option.some_inj.mp hp', ← heq] at hE
  exact ⟨u, by simpa using hE, hu⟩

/-- **C1 (counterexample).** At a concrete gated input (second match of
the day, one opponent, outcome 1) the code leaves the rating unchanged,
while the claimed lightweight nudge would strictly increase it: the two
disagree, so the claimed nudge is not what the code does. -/
theorem same_day_nudge_counterexample :
    (update_player_ratings 1 pC1 (to_glicko2_scale pC1).1 (to_glicko2_scale pC1).2
        [((0 : ℝ), (2 : ℝ), (1 : ℝ))] false 2 (tied_at_place plsTied) plsTied).map
      Player.rating = some pC1.rating ∧
    (update_player_ratings_spec_nudge pC1 (to_glicko2_scale pC1).1
        [((0 : ℝ), (2 : ℝ), (1 : ℝ))]).rating ≠ pC1.rating := by
  constructor
  · rw [update_player_ratings_gated]; rfl
  · have hS : (0 : ℝ) < SCALING_FACTOR := by norm_num [SCALING_FACTOR]
    have hg : 0 < glicko2_g 2 := by
      rw [glicko2_g, PI_SQUARED]
      positivity
    set mu : ℝ := (to_glicko2_scale pC1).1 with hmu
    have hE : glicko2_E (glicko2_g 2) mu 0 < 1 := by
      rw [glicko2_E]
      have he := Real.exp_pos (-(glicko2_g 2) * (mu - 0))
      rw [div_lt_one (by linarith)]
      linarith
    have ht : 0 < (pC1.rd / SCALING_FACTOR) ^ 2 * glicko2_g 2 *
        (1 - glicko2_E (glicko2_g 2) mu 0) := by
      have hrd : pC1.rd = 350 := by simp [pC1]
      have h1 : (0 : ℝ) < (pC1.rd / SCALING_FACTOR) ^ 2 := by
        rw [hrd]; positivity
      exact mul_pos (mul_pos h1 hg) (sub_pos.mpr hE)
    have hkey : (update_player_ratings_spec_nudge pC1 mu
        [((0 : ℝ), (2 : ℝ), (1 : ℝ))]).rating =
        (mu + (pC1.rd / SCALING_FACTOR) ^ 2 * glicko2_g 2 *
          (1 - glicko2_E (glicko2_g 2) mu 0)) * SCALING_FACTOR + 1500 := by
      rw [update_player_ratings_spec_nudge]
      simp [mul_comm]
    rw [hkey]
    have hrating : pC1.rating = 1600 := by simp [pC1]
    have hmuv : mu = (1600 - 1500) / SCALING_FACTOR := by
      rw [hmu, to_glicko2_scale, hrating]
    rw [hrating]
    have hmuS : mu * SCALING_FACTOR = 100 := by
      rw [hmuv]
      field_simp
      norm_num
    have hTS : 0 < ((pC1.rd / SCALING_FACTOR) ^ 2 * glicko2_g 2 *
        (1 - glicko2_E (glicko2_g 2) mu 0)) * SCALING_FACTOR := mul_pos ht hS
    intro hcontra
    nlinarith [hcontra, hTS, hmuS]

/-- **C1 (amended).** When the match is not the participant's first
processed match of the day (`games_today > 0`, hence the
`is_first_game_today` flag computed by `process_game` is false),
`update_player_ratings` returns immediately: rating, RD and volatility
are all left unchanged — no rating nudge of any kind is applied. -/
theorem update_player_ratings_same_day_skip (fuel : ℕ) (p : Player) (mu phi : ℝ)
    (results : List (ℝ × ℝ × ℝ)) (n : ℕ) (tied : ℤ → ℕ) (pls : List (Player × ℤ))
    (h : p.games_today ≠ 0) :
    update_player_ratings fuel p mu phi results (p.games_today == 0) n tied pls =
      some p := by
  have hb : (p.games_today == 0) = false := by simpa using h
  rw [hb, update_player_ratings_gated]

/-- Witness for C1 (amended) at the concrete gated participant `pC1`. -/
theorem update_player_ratings_same_day_skip_witness :
    update_player_ratings 1 pC1 0 1 [((0 : ℝ), (2 : ℝ), (1 : ℝ))]
      (pC1.games_today == 0) 2 (tied_at_place plsTied) plsTied = some pC1 :=
  update_player_ratings_same_day_skip 1 pC1 0 1 [((0 : ℝ), (2 : ℝ), (1 : ℝ))] 2
    (tied_at_place plsTied) plsTied (by simp [pC1])

/-- **C2 (counterexample).** Processing the two-player match `plsTied`
(both participants tied at rank 1, both gated) leaves their ratings at
1500 and 1400 — the tie group does not end with identical (or averaged)
rating and RD, so no tie-reconciliation pass exists. -/
theorem process_game_tie_not_averaged :
    ((process_game 1 plsTied 5).bind (fun l => l[0]?)).map Player.rating =
      some 1500 ∧
    ((process_game 1 plsTied 5).bind (fun l => l[1]?)).map Player.rating =
      some 1400 ∧
    ((process_game 1 plsTied 5).bind (fun l => l[0]?)).map Player.rating ≠
      ((process_game 1 plsTied 5).bind (fun l => l[1]?)).map Player.rating := by
  rw [process_game_plsTied_eval]
  refine ⟨by simp [bookkeep, pGA], by simp [bookkeep, pGB], ?_⟩
  simp [bookkeep, pGA, pGB]

/-- **C2 (amended).** `process_game` performs no tie reconciliation:
each member of a tie group ends with exactly the state produced by
their own per-participant update (bookkeeping included), so tied
participants' ratings and RDs are not replaced by tie-group means and
need not coincide. -/
theorem process_game_tie_members_keep_own_update (fuel : ℕ)
    (pls : List (Player × ℤ)) (d : ℤ) (i j : ℕ) (p q : Player) (r : ℤ)
    (out : List Player) (hi : pls[i]? = some (p, r)) (hj : pls[j]? = some (q, r))
    (hij : i ≠ j) (hout : process_game fuel pls d = some out) :
    (∃ u, process_entry fuel (decay_snapshot pls d) d (tied_at_place pls) i
        (update_rd_for_inactivity p d) r = some u ∧ out[i]? = some u) ∧
    (∃ w, process_entry fuel (decay_snapshot pls d) d (tied_at_place pls) j
        (update_rd_for_inactivity q d) r = some w ∧ out[j]? = some w) :=
  ⟨process_game_localized fuel pls d i p r out hi hout,
    process_game_localized fuel pls d j q r out hj hout⟩

/-- Witness for C2 (amended) on the concrete tied match `plsTied`. -/
theorem process_game_tie_members_keep_own_update_witness :
    (∃ u, process_entry 1 (decay_snapshot plsTied 5) 5 (tied_at_place plsTied) 0
        (update_rd_for_inactivity pGA 5) 1 = some u ∧
        ([bookkeep 5 pGA, bookkeep 5 pGB] : List Player)[0]? = some u) ∧
    (∃ w, process_entry 1 (decay_snapshot plsTied 5) 5 (tied_at_place plsTied) 1
        (update_rd_for_inactivity pGB 5) 1 = some w ∧
        ([bookkeep 5 pGA, bookkeep 5 pGB] : List Player)[1]? = some w) :=
  process_game_tie_members_keep_own_update 1 plsTied 5 0 1 pGA pGB 1
    [bookkeep 5 pGA, bookkeep 5 pGB] (by simp [plsTied]) (by simp [plsTied])
    (by decide) process_game_plsTied_eval

/-- **C5.** For a valid match, processing the participants in any order
yields the same final state: every per-participant update reads
opponent data only from the pre-match (post-decay) snapshot and writes
only its own slot, so the update steps commute. -/
theorem process_game_order_independent (fuel : ℕ) (pls : List (Player × ℤ)) (d : ℤ)
    (order : List ℕ) (hn : 2 ≤ pls.length)
    (hval : ∀ x ∈ pls, 1 ≤ x.2 ∧ x.2 ≤ (pls.length : ℤ))
    (hnd : (pls.map (fun x => x.1.name)).Nodup)
    (hperm : order.Perm (List.range pls.length)) :
    process_game_in_order fuel pls d order = process_game fuel pls d := by
  rw [process_game, process_game_in_order, process_game_in_order]
  exact hperm.foldl_eq'
    (fun x _ y _ z => process_step_comm fuel (decay_snapshot pls d) d
      (tied_at_place pls) z x y) _

/-- Witness for C5: the concrete two-player match processed in reversed
order agrees with the canonical order. -/
theorem process_game_order_independent_witness :
    process_game_in_order 1 plsTied 5 [1, 0] = process_game 1 plsTied 5 :=
  process_game_order_independent 1 plsTied 5 [1, 0] (by simp [plsTied])
    (by simp [plsTied]) (by simp [plsTied, pGA, pGB])
    (by rw [show plsTied.length = 2 by simp [plsTied]]; decide)

/-- **C10.** After `process_game`, every participant has
`last_played_date` set to the match date and `games_today` incremented
by exactly one over its post-decay value, in both update branches; a
gated participant (`games_today > 0` at update time) keeps exactly the
rating, RD and volatility produced by the decay step. -/
theorem process_game_bookkeeping (fuel : ℕ) (pls : List (Player × ℤ)) (d : ℤ)
    (i : ℕ) (p : Player) (r : ℤ) (out : List Player)
    (hget : pls[i]? = some (p, r)) (hout : process_game fuel pls d = some out) :
    ∃ u, out[i]? = some u ∧ u.last_played_date = d ∧
      u.games_today = (update_rd_for_inactivity p d).games_today + 1 ∧
      ((update_rd_for_inactivity p d).games_today ≠ 0 →
        u.rating = (update_rd_for_inactivity p d).rating ∧
        u.rd = (update_rd_for_inactivity p d).rd ∧
        u.volatility = (update_rd_for_inactivity p d).volatility) := by
  obtain ⟨u, hE, hu⟩ := process_game_localized fuel pls d i p r out hget hout
  rw [process_entry] at hE
  obtain ⟨w, hw, hbw⟩ := Option.map_eq_some'.mp hE
  refine ⟨u, hu, ?_, ?_, ?_⟩
  · rw [← hbw]; rfl
  · rw [← hbw]
    have := update_player_ratings_games_today _ _ _ _ _ _ _ _ _ _ hw
    simp [bookkeep, this]
  · intro hg
    have hb : ((update_rd_for_inactivity p d).games_today == 0) = false := by
      simpa using hg
    rw [hb, update_player_ratings_gated] at hw
    rw [← hbw, ← Option.some_inj.mp hw]
    exact ⟨rfl, rfl, rfl⟩

/-- Witness for C10 on the concrete match `plsTied`. -/
theorem process_game_bookkeeping_witness :
    ∃ u, ([bookkeep 5 pGA, bookkeep 5 pGB] : List Player)[0]? = some u ∧
      u.last_played_date = 5 ∧
      u.games_today = (update_rd_for_inactivity pGA 5).games_today + 1 ∧
      ((update_rd_for_inactivity pGA 5).games_today ≠ 0 →
        u.rating = (update_rd_for_inactivity pGA 5).rating ∧
        u.rd = (update_rd_for_inactivity pGA 5).rd ∧
        u.volatility = (update_rd_for_inactivity pGA 5).volatility) :=
  process_game_bookkeeping 1 plsTied 5 0 pGA 1 [bookkeep 5 pGA, bookkeep 5 pGB]
    (by simp [plsTied]) process_game_plsTied_eval

/-- **C4 (counterexample).** Player creation accepts volatility 0.5
without any bounds check, so a state with out-of-bounds volatility is
reachable; the inactivity-decay update then passes that volatility
through unchanged, leaving it outside the configured volatility bounds
`[0.03, 0.15]` — the claimed clamping invariant does not hold. -/
theorem decay_volatility_out_of_bounds :
    (add_player [] "X" 1500 100 0.5 0).isSome = true ∧
    (update_rd_for_inactivity pC4 5).volatility = 0.5 ∧
    ¬ (update_rd_for_inactivity pC4 5).volatility ≤ volatilityMax := by
  have h : (update_rd_for_inactivity pC4 5).volatility = 0.5 := by
    rw [update_rd_for_inactivity]
    simp [pC4]
  refine ⟨rfl, h, ?_⟩
  rw [h, volatilityMax]
  norm_num

/-- **C4 (amended).** The only bound the code enforces is the cap of
350 on RD inside the inactivity-decay step (when the date differs);
volatility is passed through every decay update unchanged and is never
clamped to any bounds. -/
theorem update_rd_bounds_amended (p : Player) (d : ℤ) :
    (update_rd_for_inactivity p d).volatility = p.volatility ∧
    (p.last_played_date ≠ d → (update_rd_for_inactivity p d).rd ≤ 350) := by
  constructor
  · by_cases h : p.last_played_date = d <;> simp [update_rd_for_inactivity, h]
  · intro h
    simp only [update_rd_for_inactivity, if_pos h]
    exact min_le_right _ _

/-- Witness for C4 (amended) at the concrete player `pC4` on day 5. -/
theorem update_rd_bounds_amended_witness :
    (update_rd_for_inactivity pC4 5).volatility = pC4.volatility ∧
    (update_rd_for_inactivity pC4 5).rd ≤ 350 :=
  ⟨(update_rd_bounds_amended pC4 5).1,
    (update_rd_bounds_amended pC4 5).2 (by simp [pC4])⟩

/-- **C7 (counterexample).** In a two-player match where both
participants share rank 2 (permitted by the match invariant: ranks in
`[1, 2]`, values may be skipped), the outcome score is 0, not the
claimed 0.5. -/
theorem two_player_tie_rank_two :
    outcome_score 2 (tied_at_place [(pGA, 2), (pGB, 2)]) 2 2 = 0 ∧
    (0 : ℝ) ≠ 0.5 := by
  constructor
  · have hc : tied_at_place [(pGA, 2), (pGB, 2)] 2 = 2 := by
      simp [tied_at_place]
    rw [outcome_score, hc]
    norm_num
  · norm_num

/-- **C7 (amended).** In a two-player match with both participants at
the shared rank `r ∈ [1, 2]` the outcome score for each against the
other is `(2 - r) / 2`: it equals 0.5 exactly when the shared rank is
1, and 0 when the shared rank is 2. -/
theorem two_player_tie_outcome (pA pB : Player) (r : ℤ) (h1 : 1 ≤ r) (h2 : r ≤ 2) :
    outcome_score 2 (tied_at_place [(pA, r), (pB, r)]) r r =
      ((2 : ℝ) - (r : ℝ)) / 2 := by
  have hc : tied_at_place [(pA, r), (pB, r)] r = 2 := by
    simp [tied_at_place]
  rw [outcome_score, hc]
  norm_num

/-- Witness for C7 (amended): shared rank 1 gives `(2 - 1)/2 = 0.5`. -/
theorem two_player_tie_outcome_witness :
    outcome_score 2 (tied_at_place [(pGA, 1), (pGB, 1)]) 1 1 =
      ((2 : ℝ) - ((1 : ℤ) : ℝ)) / 2 :=
  two_player_tie_outcome pGA pGB 1 (by decide) (by decide)

/-- **C8.** The inactivity-decay step is the identity when the match
date equals `last_played_date`; otherwise it sets RD to
`min(sqrt(phi^2 + volatility^2 * days) * S, 350)` with `phi = RD / S`
and `days` the elapsed days since `last_played_date` (which holds
`seasonStart` for a participant who never played, see `Player.make`),
resets `games_today` to 0, and leaves rating and volatility unchanged.
It is applied exactly once per participant, before any outcome
computation (see `decay_snapshot` and `process_game_in_order`). -/
theorem update_rd_for_inactivity_spec (p : Player) (d : ℤ) :
    (p.last_played_date = d → update_rd_for_inactivity p d = p) ∧
    (p.last_played_date ≠ d →
      (update_rd_for_inactivity p d).rd =
        min (Real.sqrt ((p.rd / SCALING_FACTOR) ^ 2 +
          p.volatility ^ 2 * ((d - p.last_played_date : ℤ) : ℝ)) * SCALING_FACTOR)
          350 ∧
      (update_rd_for_inactivity p d).games_today = 0 ∧
      (update_rd_for_inactivity p d).rating = p.rating ∧
      (update_rd_for_inactivity p d).volatility = p.volatility) := by
  constructor
  · intro h
    simp [update_rd_for_inactivity, h]
  · intro h
    simp [update_rd_for_inactivity, h]

/-- Witness for C8: the same-date branch at `pGA` (last played day 5,
match day 5) and the decay branch at `pC4` (last played day 3, match
day 5). -/
theorem update_rd_for_inactivity_spec_witness :
    update_rd_for_inactivity pGA 5 = pGA ∧
    ((update_rd_for_inactivity pC4 5).rd =
      min (Real.sqrt ((pC4.rd / SCALING_FACTOR) ^ 2 +
        pC4.volatility ^ 2 * ((5 - pC4.last_played_date : ℤ) : ℝ)) * SCALING_FACTOR)
        350 ∧
    (update_rd_for_inactivity pC4 5).games_today = 0 ∧
    (update_rd_for_inactivity pC4 5).rating = pC4.rating ∧
    (update_rd_for_inactivity pC4 5).volatility = pC4.volatility) :=
  ⟨(update_rd_for_inactivity_spec pGA 5).1 (by simp [pGA]),
    (update_rd_for_inactivity_spec pC4 5).2 (by simp [pC4])⟩

/-- **C9 (counterexample).** The GUI match form accepts a two-player
match whose placement rank 5 lies outside `[1, N] = [1, 2]` — the match
is not rejected, so the claimed validation does not hold on the
`add_match_ui` path (the accepted match is then processed, mutating
player state). -/
theorem add_match_ui_accepts_out_of_range_rank :
    add_match_ui_validate [("A", 5), ("B", 1)] = some [("A", 5), ("B", 1)] ∧
    ¬ ((5 : ℤ) ≤ (([("A", 5), ("B", 1)] : List (String × ℤ)).length : ℤ)) := by
  constructor
  · decide
  · decide

theorem read_entries_spec : ∀ (es acc : List (String × ℤ)) (ps : List (String × ℤ)),
    read_entries es acc = some ps →
    ps = acc.reverse ++ es ∧ (∀ x ∈ es, 1 ≤ x.2) ∧
    ((acc.map Prod.fst).Nodup → (ps.map Prod.fst).Nodup) := by
  intro es
  induction es with
  | nil =>
    intro acc ps h
    rw [read_entries] at h
    rw [← Option.some_inj.mp h]
    refine ⟨by simp, by simp, ?_⟩
    intro hnd
    simpa using hnd
  | cons hd tl ih =>
    intro acc ps h
    obtain ⟨name, place⟩ := hd
    rw [read_entries] at h
    by_cases h1 : place < 1
    · rw [if_pos h1] at h; exact absurd h (by simp)
    rw [if_neg h1] at h
    by_cases h2 : acc.any (fun x => x.1 = name)
    · rw [if_pos h2] at h; exact absurd h (by simp)
    rw [if_neg h2] at h
    obtain ⟨hps, hall, hnd⟩ := ih ((name, place) :: acc) ps h
    refine ⟨?_, ?_, ?_⟩
    · rw [hps]; simp
    · intro x hx
      rcases List.mem_cons.mp hx with rfl | hx
      · simpa using not_lt.mp h1
      · exact hall x hx
    · intro hacc
      apply hnd
      simp only [List.map_cons, List.nodup_cons]
      refine ⟨?_, hacc⟩
      intro hmem
      apply h2
      rw [List.any_eq_true]
      obtain ⟨y, hy, hy2⟩ := List.mem_map.mp hmem
      exact ⟨y, hy, by simp [hy2]⟩

/-- **C9 (amended).** The file-based reader (`read_game_file`) rejects
a game unless it has at least two participants, no duplicate
participant, and every placement in `[1, N]`; the GUI match form
(`add_match_ui`) enforces only the first two conditions — it performs
no range check on placements. -/
theorem match_validation_amended :
    (∀ entries ps, read_game_line entries = some ps →
      ps = entries ∧ 2 ≤ ps.length ∧ (ps.map Prod.fst).Nodup ∧
        ∀ x ∈ ps, 1 ≤ x.2 ∧ x.2 ≤ (ps.length : ℤ)) ∧
    (∀ entries ps, add_match_ui_validate entries = some ps →
      ps = entries ∧ 2 ≤ ps.length ∧ (ps.map Prod.fst).Nodup) := by
  constructor
  · intro entries ps h
    rw [read_game_line] at h
    obtain ⟨l, hl, hcheck⟩ := Option.bind_eq_some.mp h
    obtain ⟨hps, hall, hnd⟩ := read_entries_spec entries [] l hl
    simp only [List.reverse_nil, List.nil_append] at hps
    subst hps
    by_cases c1 : l.length < 2
    · rw [if_pos c1] at hcheck; exact absurd hcheck (by simp)
    rw [if_neg c1] at hcheck
    by_cases c2 : l.any (fun x => (l.length : ℤ) < x.2)
    · rw [if_pos c2] at hcheck; exact absurd hcheck (by simp)
    rw [if_neg c2] at hcheck
    rw [← Option.some_inj.mp hcheck]
    refine ⟨rfl, not_lt.mp c1, hnd (by simp), ?_⟩
    intro x hx
    refine ⟨hall x hx, ?_⟩
    rw [List.any_eq_true] at c2
    push_neg at c2
    simpa using c2 x hx
  · intro entries ps h
    rw [add_match_ui_validate] at h
    by_cases c1 : entries.length < 2
    · rw [if_pos c1] at h; exact absurd h (by simp)
    rw [if_neg c1] at h
    by_cases c2 : ¬ (entries.map Prod.fst).Nodup
    · rw [if_pos c2] at h; exact absurd h (by simp)
    rw [if_neg c2] at h
    rw [← Option.some_inj.mp h]
    exact ⟨rfl, not_lt.mp c1, not_not.mp c2⟩

/-- Witness for C9 (amended) on a concrete valid line and a concrete
valid GUI submission. -/
theorem match_validation_amended_witness :
    (([("A", (1 : ℤ)), ("B", 2)] : List (String × ℤ)) = [("A", 1), ("B", 2)] ∧
      2 ≤ ([("A", (1 : ℤ)), ("B", 2)] : List (String × ℤ)).length ∧
      (([("A", (1 : ℤ)), ("B", 2)] : List (String × ℤ)).map Prod.fst).Nodup ∧
      ∀ x ∈ ([("A", (1 : ℤ)), ("B", 2)] : List (String × ℤ)),
        1 ≤ x.2 ∧ x.2 ≤ (([("A", (1 : ℤ)), ("B", 2)] : List (String × ℤ)).length : ℤ)) :=
  match_validation_amended.1 [("A", 1), ("B", 2)] [("A", 1), ("B", 2)] (by decide)

end Glicko
